import Mathlib

/-!
Verification of the swim-meet PDF heat-sheet parser (`pdf_to_heats_xlsx.py`).

The parser's pure core is shallowly embedded below: line classifiers
(`parse_event_header`, `parse_heat_label`, `parse_lane_line`,
`parse_alternate_line`), field normalizers (`normalise_name`,
`stroke_to_code`, `clean_heat_label`), title inference (`infer_day_title`),
and the line-by-line parse state machine (`step` / `parseLines`).

Python regular expressions are modelled faithfully: a small backtracking
matcher (`mrun`) reproduces leftmost matching, greedy repetition,
alternation order, case-insensitivity and ASCII word boundaries for the
nontrivial patterns, while the simpler, deterministic patterns are
translated into direct character-list scanners.  Python `str` values are
modelled as `List Char` (wrapped in `String` at the interfaces), machine
errors (`ValueError` from `strptime`, `OverflowError` from date overflow)
as `Except String`.
-/

namespace SwimParse

/-! ## Character classes (ASCII fragment of Python `str` semantics) -/

/-- Python whitespace (`\s`, `str.strip`), ASCII fragment. -/
def isSpaceC (c : Char) : Bool :=
  c = ' ' || c = '\t' || c = '\n' || c = '\r' || c = '\x0b' || c = '\x0c'

/-- Digit class `[0-9]` / `\d` (ASCII). -/
def isDigitC (c : Char) : Bool := 48 ≤ c.toNat && c.toNat ≤ 57

/-- Uppercase class `[A-Z]`. -/
def isUpperC (c : Char) : Bool := 65 ≤ c.toNat && c.toNat ≤ 90

/-- Lowercase class `[a-z]`. -/
def isLowerC (c : Char) : Bool := 97 ≤ c.toNat && c.toNat ≤ 122

/-- ASCII letter (`[A-Za-z]`, what `[A-Z]` matches under `re.IGNORECASE`). -/
def isAlphaC (c : Char) : Bool := isUpperC c || isLowerC c

/-- Word class `\w` (ASCII): letter, digit or underscore. -/
def isWordC (c : Char) : Bool := isAlphaC c || isDigitC c || c = '_'

/-- Python `str.lower` on one ASCII char. -/
def lowerC (c : Char) : Char :=
  if isUpperC c then Char.ofNat (c.toNat + 32) else c

/-- Python `str.upper` on one ASCII char. -/
def upperC (c : Char) : Char :=
  if isLowerC c then Char.ofNat (c.toNat - 32) else c

/-- Case-insensitive character equality. -/
def eqCI (a b : Char) : Bool := lowerC a = lowerC b

/-! ## Whitespace handling -/

/-- Drop leading whitespace (Python `lstrip`). -/
def dropSpaces (l : List Char) : List Char := l.dropWhile isSpaceC

/-- Drop trailing whitespace (Python `rstrip`). -/
def rstripWS (l : List Char) : List Char :=
  (l.reverse.dropWhile isSpaceC).reverse

/-- Python `str.strip()`. -/
def stripWS (l : List Char) : List Char := dropSpaces (rstripWS l)

/-- Worker for `collapseWS`; the flag records whether the previous output
character was (collapsed) whitespace. -/
def collapseAux : Bool → List Char → List Char
  | _, [] => []
  | pre, c :: cs =>
    if isSpaceC c then
      (if pre then collapseAux true cs else ' ' :: collapseAux true cs)
    else c :: collapseAux false cs

/-- Python `re.sub(r"\s+", " ", s)`: every maximal whitespace run becomes a
single blank. -/
def collapseWS (l : List Char) : List Char := collapseAux false l

/-- Python `int()` on a digit string. -/
def natOfDigits (l : List Char) : Nat :=
  l.foldl (fun n c => n * 10 + (c.toNat - 48)) 0

/-- Drop a case-insensitive literal from the front, returning the rest. -/
def dropCI : List Char → List Char → Option (List Char)
  | [], l => some l
  | _ :: _, [] => none
  | p :: ps, c :: cs => if eqCI p c then dropCI ps cs else none

/-- Prefix test `isPreL n l`: `n` is a (case-sensitive) prefix of `l`
(Python `str.startswith`). -/
def isPreL : List Char → List Char → Bool
  | [], _ => true
  | _ :: _, [] => false
  | a :: as, b :: bs => a = b && isPreL as bs

/-- Python substring containment (`needle in hay`). -/
def containsL (n : List Char) : List Char → Bool
  | [] => isPreL n []
  | c :: cs => isPreL n (c :: cs) || containsL n cs

/-- Fuelled worker for `pythonSplit`. -/
def pySplitF : Nat → List Char → List (List Char)
  | 0, _ => []
  | _ + 1, [] => []
  | f + 1, c :: cs =>
    if isSpaceC c then pySplitF f cs
    else (c :: cs.takeWhile (fun x => !isSpaceC x)) ::
      pySplitF f (cs.dropWhile (fun x => !isSpaceC x))

/-- Python `str.split()`: split on whitespace runs, no empty tokens. -/
def pythonSplit (l : List Char) : List (List Char) := pySplitF l.length l

/-- Python `" ".join(tokens)`. -/
def joinSp : List (List Char) → List Char
  | [] => []
  | [t] => t
  | t :: ts => t ++ ' ' :: joinSp ts

/-! ## A small backtracking regex matcher

Reproduces the Python `re` behaviour needed here: leftmost match,
greedy repetition and option, ordered alternation, case-insensitive
literals, ASCII `\b`.  `mrun` threads the previously consumed character
(for `\b`) and a success continuation; the first success in engine order
is the Python match. -/

inductive RE where
  | lit : List Char → RE
  | cls : (Char → Bool) → RE
  | seq : RE → RE → RE
  | alt : RE → RE → RE
  | opt : RE → RE
  | star : (Char → Bool) → RE
  | rep : (Char → Bool) → Nat → Nat → RE
  | wb : RE

/-- Consume a case-insensitive literal, tracking the last consumed char. -/
def consCI : List Char → Option Char → List Char →
    Option (Option Char × List Char)
  | [], prev, l => some (prev, l)
  | _ :: _, _, [] => none
  | p :: ps, _, c :: cs => if eqCI p c then consCI ps (some c) cs else none

/-- Wordness of the optional previous character (`none` = string start). -/
def isWordO : Option Char → Bool
  | some c => isWordC c
  | none => false

/-- Wordness of the next character (`[]` = string end). -/
def isWordHead : List Char → Bool
  | c :: _ => isWordC c
  | [] => false

/-- Greedy `p*` with backtracking into the continuation. -/
def mstar (p : Char → Bool) :
    Option Char → List Char → (Option Char → List Char → Option (List Char)) →
      Option (List Char)
  | prev, [], k => k prev []
  | prev, c :: cs, k =>
    if p c then
      match mstar p (some c) cs k with
      | some r => some r
      | none => k prev (c :: cs)
    else k prev (c :: cs)

/-- Greedy `p{mn,mx}` with backtracking into the continuation. -/
def mrep (p : Char → Bool) :
    Nat → Nat → Option Char → List Char →
      (Option Char → List Char → Option (List Char)) → Option (List Char)
  | mn, 0, prev, l, k => if mn = 0 then k prev l else none
  | mn, mx + 1, prev, l, k =>
    match l with
    | c :: cs =>
      if p c then
        match mrep p (mn - 1) mx (some c) cs k with
        | some r => some r
        | none => if mn = 0 then k prev l else none
      else if mn = 0 then k prev l else none
    | [] => if mn = 0 then k prev [] else none

/-- The matcher: first success in Python backtracking order. -/
def mrun : RE → Option Char → List Char →
    (Option Char → List Char → Option (List Char)) → Option (List Char)
  | .lit s, prev, l, k =>
    match consCI s prev l with
    | some (p2, l2) => k p2 l2
    | none => none
  | .cls p, _, l, k =>
    match l with
    | c :: cs => if p c then k (some c) cs else none
    | [] => none
  | .seq a b, prev, l, k => mrun a prev l (fun p2 l2 => mrun b p2 l2 k)
  | .alt a b, prev, l, k =>
    match mrun a prev l k with
    | some r => some r
    | none => mrun b prev l k
  | .opt a, prev, l, k =>
    match mrun a prev l k with
    | some r => some r
    | none => k prev l
  | .star p, prev, l, k => mstar p prev l k
  | .rep p mn mx, prev, l, k => mrep p mn mx prev l k
  | .wb, prev, l, k => if isWordO prev != isWordHead l then k prev l else none

/-- Length of the match of `r` anchored at the current position, if any. -/
def reMatchLen (r : RE) (prev : Option Char) (l : List Char) : Option Nat :=
  match mrun r prev l (fun _ rest => some rest) with
  | some rest => some (l.length - rest.length)
  | none => none

/-- Fuelled worker for `reSub`: scan left to right, replacing each
non-overlapping leftmost match (Python `re.sub`). -/
def reSubF (r : RE) (rep : List Char) : Nat → Option Char → List Char →
    List Char
  | 0, _, l => l
  | _ + 1, _, [] => []
  | f + 1, prev, c :: cs =>
    match reMatchLen r prev (c :: cs) with
    | some n =>
      if n = 0 then c :: reSubF r rep f (some c) cs
      else rep ++ reSubF r rep f ((c :: cs).take n).getLast?
        ((c :: cs).drop n)
    | none => c :: reSubF r rep f (some c) cs

/-- Python `re.sub(r, rep, l)` (for the engine-modelled patterns). -/
def reSub (r : RE) (rep : List Char) (l : List Char) : List Char :=
  reSubF r rep l.length none l

/-- Python `re.search(r, l) is not None`. -/
def reFound (r : RE) : Option Char → List Char → Bool
  | _, [] => false
  | prev, c :: cs => (reMatchLen r prev (c :: cs)).isSome || reFound r (some c) cs

/-- Right-fold a pattern list into nested sequencing. -/
def seqL (rs : List RE) : RE := rs.foldr RE.seq (.lit [])

/-! ## `normalise_name` -/

/-- After `(`, try to consume `\s*V\s*\)` (the tail of the visitor marker
`\(\s*V\s*\)`, `re.IGNORECASE`). -/
def vTail (cs : List Char) : Option (List Char) :=
  match dropSpaces cs with
  | v :: r =>
    if v = 'V' || v = 'v' then
      match dropSpaces r with
      | ')' :: r2 => some r2
      | _ => none
    else none
  | [] => none

/-- Fuelled worker for `removeV`. -/
def removeVF : Nat → List Char → List Char
  | 0, l => l
  | _ + 1, [] => []
  | f + 1, c :: cs =>
    if c = '(' then
      match vTail cs with
      | some rest => removeVF f rest
      | none => c :: removeVF f cs
    else c :: removeVF f cs

/-- Python `re.sub(r"\(\s*V\s*\)", "", name, flags=re.IGNORECASE)`. -/
def removeV (l : List Char) : List Char := removeVF l.length l

/-- Does `l` (all of it) match `\s+S[A-Z]{0,2}\d{1,2}\s*$`
(`re.IGNORECASE`)?  The pattern is deterministic, so a direct scan
suffices. -/
def isMCsuffix (l : List Char) : Bool :=
  match l with
  | c :: _ =>
    isSpaceC c &&
      (match dropSpaces l with
       | s :: r =>
         (s = 'S' || s = 's') &&
           (let ls := r.takeWhile isAlphaC
            let r2 := r.dropWhile isAlphaC
            let ds := r2.takeWhile isDigitC
            let r3 := r2.dropWhile isDigitC
            ls.length ≤ 2 && decide (1 ≤ ds.length) && ds.length ≤ 2 &&
              r3.all isSpaceC)
       | [] => false)
  | [] => false

/-- Python `re.sub(r"\s+S[A-Z]{0,2}\d{1,2}\s*$", "", name, flags=re.IGNORECASE)`:
the leftmost position where the whole remaining suffix matches is cut. -/
def removeTrailMC : List Char → List Char
  | [] => []
  | c :: cs => if isMCsuffix (c :: cs) then [] else c :: removeTrailMC cs

/-- Python `str.replace(" ,", ",")`. -/
def replSpComma : List Char → List Char
  | ' ' :: ',' :: cs => ',' :: replSpComma cs
  | c :: cs => c :: replSpComma cs
  | [] => []

/-- Python `str.replace(",", ", ")`. -/
def commaSp : List Char → List Char
  | ',' :: cs => ',' :: ' ' :: commaSp cs
  | c :: cs => c :: commaSp cs
  | [] => []

/-- Fuelled worker for `normCommaSp`. -/
def normCommaSpF : Nat → List Char → List Char
  | 0, l => l
  | _ + 1, [] => []
  | f + 1, c :: cs =>
    if c = ',' then
      match cs with
      | d :: _ =>
        if isSpaceC d then ',' :: ' ' :: normCommaSpF f (dropSpaces cs)
        else c :: normCommaSpF f cs
      | [] => [c]
    else c :: normCommaSpF f cs

/-- Python `re.sub(r",\s+", ", ", name)`. -/
def normCommaSp (l : List Char) : List Char := normCommaSpF l.length l

/-- Function `normalise_name` from `pdf_to_heats_xlsx.py`: strip, remove the
visitor marker `(V)`, remove a trailing multi-class token, normalise
comma spacing, collapse whitespace, uppercase. -/
def normalise_name (name : String) : String :=
  let l0 := stripWS name.data
  let l1 := removeV l0
  let l2 := removeTrailMC l1
  let l3 := replSpComma l2
  let l4 := commaSp l3
  let l5 := normCommaSp l4
  let l6 := collapseWS l5
  String.mk ((stripWS l6).map upperC)

/-! ## `stroke_to_code` and `parse_event_header` -/

/-- Function `stroke_to_code` from `pdf_to_heats_xlsx.py`. -/
def stroke_to_code (stroke : List Char) : List Char :=
  let s := (stripWS stroke).map lowerC
  if containsL "free".data s then "FS".data
  else if containsL "back".data s then "BK".data
  else if containsL "breast".data s then "BR".data
  else if containsL "butter".data s || containsL "fly".data s then "FLY".data
  else if containsL "medley".data s || s = "im".data then "IM".data
  else (stroke.filter (fun c => !isSpaceC c)).map upperC

/-- The gender-word alternation of the event-header pattern, in the
source's order, with the mapping `{"girls": W, "women": W, "boys": M,
"men": M, "mixed": X}`. -/
def genderWords : List (List Char × String) :=
  [("Girls".data, "W"), ("Women".data, "W"), ("Boys".data, "M"),
   ("Men".data, "M"), ("Mixed".data, "X")]

/-- Try each gender word (alternation order); a successful branch must be
followed by a blank and a nonempty remainder (`\s+(.+)$` on the
whitespace-collapsed line). -/
def findGender : List (List Char × String) → List Char →
    Option (String × List Char)
  | [], _ => none
  | (w, g) :: ws, l =>
    match dropCI w l with
    | some (' ' :: rest) =>
      if rest = [] then findGender ws l else some (g, rest)
    | _ => findGender ws l

/-- At this position of the (collapsed) remainder, try
`(\d+)\s+LC\s+Meter\s+(.+)$` (or without `LC`), returning the digits and
the stroke phrase. -/
def tryDistAt (useLC : Bool) (l : List Char) : Option (List Char × List Char) :=
  let ds := l.takeWhile isDigitC
  if ds = [] then none
  else
    match l.dropWhile isDigitC with
    | ' ' :: r1 =>
      let r2o :=
        if useLC then
          match dropCI "LC".data r1 with
          | some (' ' :: r) => some r
          | _ => none
        else some r1
      match r2o with
      | none => none
      | some r2 =>
        match dropCI "Meter".data r2 with
        | some (' ' :: rest) => if rest = [] then none else some (ds, rest)
        | _ => none
    | _ => none

/-- Leftmost-position search for the distance/stroke segment; `pre`
accumulates the age-group prefix (reversed). -/
def findDistFrom (useLC : Bool) (pre : List Char) :
    List Char → Option (List Char × List Char × List Char)
  | [] => none
  | c :: cs =>
    match tryDistAt useLC (c :: cs) with
    | some (ds, stroke) => some (pre.reverse, ds, stroke)
    | none => findDistFrom useLC (c :: pre) cs

/-- Python `re.search(r"(\d+)\s+LC\s+Meter\s+(.+)$", rest)` with the
`Meter`-only fallback; returns (text before the match, distance digits,
stroke phrase). -/
def findDistStroke (rest : List Char) :
    Option (List Char × List Char × List Char) :=
  match findDistFrom true [] rest with
  | some r => some r
  | none => findDistFrom false [] rest

/-- Pattern `\bmulti\s*-?\s*class\b` (`re.IGNORECASE`) as an engine value. -/
def mcMarkRE : RE :=
  seqL [.wb, .lit "multi".data, .star isSpaceC, .opt (.lit "-".data),
    .star isSpaceC, .lit "class".data, .wb]

/-- Finish event-header extraction once number and gender are fixed:
locate the distance/stroke tail, detect/remove the multi-class marker,
build the event code and the age group.  Always succeeds (the source's
worst-case fallback). -/
def eventTail (n : Nat) (g : String) (restl : List Char) :
    Nat × String × String × String :=
  let rest := stripWS restl
  match findDistStroke rest with
  | none => (n, g, String.mk (rest.map upperC), "")
  | some (pre, ds, strokeTail) =>
    let strokeRaw := collapseWS (stripWS strokeTail)
    let isMC := reFound mcMarkRE none strokeRaw
    let stroke := collapseWS (stripWS (reSub mcMarkRE [] strokeRaw))
    let code := String.mk (ds ++ stroke_to_code stroke) ++
      (if isMC then " MC" else "")
    (n, g, code, String.mk (stripWS pre))

/-- Function `parse_event_header` from `pdf_to_heats_xlsx.py`: collapse whitespace,
match `^Event\s+(\d+)\s+(Girls|Women|Boys|Men|Mixed)\s+(.+)$`
(`re.IGNORECASE`), then split the remainder into age group, distance and
stroke. -/
def parse_event_header (line : String) :
    Option (Nat × String × String × String) :=
  let l := collapseWS (stripWS line.data)
  match dropCI "Event".data l with
  | none => none
  | some l1 =>
    match l1 with
    | ' ' :: l2 =>
      let ds := l2.takeWhile isDigitC
      if ds = [] then none
      else
        match l2.dropWhile isDigitC with
        | ' ' :: l4 =>
          match findGender genderWords l4 with
          | none => none
          | some (g, restl) => some (eventTail (natOfDigits ds) g restl)
        | _ => none
    | _ => none

/-! ## `clean_heat_label` and `parse_heat_label` -/

/-- Normalise unicode dashes (`–`, `—`) to `-`. -/
def dashNorm (l : List Char) : List Char :=
  l.map (fun c => if c = '–' || c = '—' then '-' else c)

/-- Pattern `\d{1,2}` -/
def reD12 : RE := .rep isDigitC 1 2

/-- Pattern `\s*` -/
def reS : RE := .star isSpaceC

/-- Pattern `(?:&|and)` -/
def reAmp : RE := .alt (.lit "&".data) (.lit "and".data)

/-- Pattern `(?:Over|Under)` -/
def reOverUnder : RE := .alt (.lit "Over".data) (.lit "Under".data)

/-- Pattern `Years?` -/
def reYears : RE := .seq (.lit "Year".data) (.opt (.lit "s".data))

/-- Pattern `Olds?` -/
def reOlds : RE := .seq (.lit "Old".data) (.opt (.lit "s".data))

/-- The source's ordered age-phrase patterns (ranges before single ages). -/
def agePhrasePatterns : List RE :=
  [seqL [.wb, reD12, reS, .lit "-".data, reS, reD12, reS, reYears, reS,
     .opt reAmp, reS, reOlds, .wb],
   seqL [.wb, reD12, reS, .lit "-".data, reS, reD12, reS, reYears, .wb],
   seqL [.wb, reD12, reS, reYears, reS, reAmp, reS, reOverUnder, .wb],
   seqL [.wb, reD12, reS, reAmp, reS, reOverUnder, .wb],
   seqL [.wb, reD12, reS, reYears, reS, reOlds, .wb],
   seqL [.wb, reYears, reS, reAmp, reS, reOverUnder, .wb]]

/-- Apply the six age-phrase removals in order. -/
def cleanPatterns (l : List Char) : List Char :=
  agePhrasePatterns.foldl (fun s p => reSub p [] s) l

/-- Python `str.rstrip("- ")`. -/
def rstripDashSpace (l : List Char) : List Char :=
  (l.reverse.dropWhile (fun c => c = '-' || c = ' ')).reverse

/-- Python `re.sub(r"^(\S+)\s+\d{1,2}$", r"\1", s)`: a token followed only by a
bare 1-2 digit number loses that number. -/
def twoTokSub (l : List Char) : List Char :=
  let tok := l.takeWhile (fun c => !isSpaceC c)
  let r1 := l.dropWhile (fun c => !isSpaceC c)
  let sp := r1.takeWhile isSpaceC
  let ds := r1.dropWhile isSpaceC
  if tok ≠ [] ∧ sp ≠ [] ∧ ds ≠ [] ∧ ds.length ≤ 2 ∧ ds.all isDigitC then tok
  else l

/-- Function `clean_heat_label` from `pdf_to_heats_xlsx.py`. -/
def clean_heat_label (label : String) : String :=
  let s1 := collapseWS (stripWS label.data)
  let s2 := dashNorm s1
  let s3 := cleanPatterns s2
  let s4 := stripWS (collapseWS s3)
  let s5 := stripWS (rstripDashSpace s4)
  let s6 := twoTokSub s5
  String.mk (stripWS s6)

/-- After a heat keyword, require `\s+(.+)$` on the collapsed line. -/
def keywordTail (w : List Char) (l : List Char) : Option (List Char) :=
  match dropCI w l with
  | some (' ' :: rest) => if rest = [] then none else some rest
  | _ => none

/-- Function `parse_heat_label` from `pdf_to_heats_xlsx.py`:
`^(Final|Heat)\s+(.+)$` (`re.IGNORECASE`) then `clean_heat_label`. -/
def parse_heat_label (line : String) : Option String :=
  let l := collapseWS (stripWS line.data)
  match keywordTail "Final".data l with
  | some rest => some (clean_heat_label (String.mk (stripWS rest)))
  | none =>
    match keywordTail "Heat".data l with
    | some rest => some (clean_heat_label (String.mk (stripWS rest)))
    | none => none

/-! ## Row classifiers: lane rows and alternate rows -/

/-- The source's `AGE_PAT`: `^(\d{1,2})$`. -/
def agePat (t : List Char) : Bool :=
  decide (1 ≤ t.length) && t.length ≤ 2 && t.all isDigitC

/-- Pattern `^[MWX]\d{1,2}$` (`re.IGNORECASE`). -/
def sexAgePat (t : List Char) : Bool :=
  match t with
  | c :: r =>
    (eqCI c 'M' || eqCI c 'W' || eqCI c 'X') && decide (1 ≤ r.length) &&
      r.length ≤ 2 && r.all isDigitC
  | [] => false

/-- Pattern `^S[A-Z]{0,2}\d{1,2}$` (`re.IGNORECASE`). -/
def mcPat (t : List Char) : Bool :=
  match t with
  | c :: r =>
    (c = 'S' || c = 's') &&
      (let ls := r.takeWhile isAlphaC
       let r2 := r.dropWhile isAlphaC
       ls.length ≤ 2 && decide (1 ≤ r2.length) && r2.length ≤ 2 &&
         r2.all isDigitC)
  | [] => false

/-- Pattern `^(NT|\d{1,2}:\d{2}\.\d{2})$` (`re.IGNORECASE`). -/
def ntTimePat (t : List Char) : Bool :=
  (match t with
   | [a, b] => eqCI a 'N' && eqCI b 'T'
   | _ => false) ||
  (let m := t.takeWhile isDigitC
   let r := t.dropWhile isDigitC
   decide (1 ≤ m.length) && m.length ≤ 2 &&
     (match r with
      | ':' :: s1 :: s2 :: '.' :: c1 :: [c2] =>
        isDigitC s1 && isDigitC s2 && isDigitC c1 && isDigitC c2
      | _ => false))

/-- Stop set for lane-row name collection. -/
def laneStop (t : List Char) : Bool :=
  agePat t || sexAgePat t || mcPat t || ntTimePat t

/-- Stop set for alternate-row name collection (no `NT`/time check). -/
def altStop (t : List Char) : Bool := agePat t || sexAgePat t || mcPat t

/-- Function `parse_lane_line` from `pdf_to_heats_xlsx.py`: `^([0-9])\s+(.*)$` on
the stripped line, then collect name tokens up to the first stop token. -/
def parse_lane_line (line : String) : Option (Nat × String) :=
  match stripWS line.data with
  | c :: c2 :: rest =>
    if isDigitC c && isSpaceC c2 then
      let toks := pythonSplit (c2 :: rest)
      let nameToks := toks.takeWhile (fun t => !laneStop t)
      if nameToks = [] then none
      else some (c.toNat - 48, normalise_name (String.mk (joinSp nameToks)))
    else none
  | _ => none

/-- Whitespace-collapse and strip a line, as the row parsers do first. -/
def normLine (s : String) : List Char := collapseWS (stripWS s.data)

/-- Split `^(\d+)\s+(.*)$` on an already-collapsed line. -/
def splitRank (l : List Char) : Option (List Char × List Char) :=
  let ds := l.takeWhile isDigitC
  match l.dropWhile isDigitC with
  | ' ' :: rest => if ds = [] then none else some (ds, rest)
  | _ => none

/-- Pattern `^\d{1,2}:\d{2}\.\d{2}$|^\d{1,2}\.\d{2}$|^NT$` (`re.IGNORECASE`),
the prelim-time shapes of `parse_alternate_line`. -/
def prelimPat (t : List Char) : Bool :=
  (let m := t.takeWhile isDigitC
   let r := t.dropWhile isDigitC
   decide (1 ≤ m.length) && m.length ≤ 2 &&
     (match r with
      | ':' :: s1 :: s2 :: '.' :: c1 :: [c2] =>
        isDigitC s1 && isDigitC s2 && isDigitC c1 && isDigitC c2
      | '.' :: c1 :: [c2] => isDigitC c1 && isDigitC c2
      | _ => false)) ||
  (match t with
   | [a, b] => eqCI a 'N' && eqCI b 'T'
   | _ => false)

/-- Scan the tokens after the age token for the first time-shaped token:
tokens before it are the team, it is the prelim. -/
def findPrelim : List (List Char) → Option (List (List Char) × List Char)
  | [] => none
  | t :: ts =>
    if prelimPat t then some ([], t)
    else
      match findPrelim ts with
      | some (team, pre) => some (t :: team, pre)
      | none => none

/-- Function `parse_alternate_line` from `pdf_to_heats_xlsx.py`. -/
def parse_alternate_line (line : String) :
    Option (Nat × String × String × String) :=
  match splitRank (normLine line) with
  | none => none
  | some (ds, rest) =>
    let toks := pythonSplit rest
    let nameToks := toks.takeWhile (fun t => !altStop t)
    let afterStop := toks.dropWhile (fun t => !altStop t)
    if nameToks = [] then none
    else
      let name := normalise_name (String.mk (joinSp nameToks))
      let (team, prelim) :=
        match afterStop with
        | [] => ([], [])
        | _ :: rem =>
          match findPrelim rem with
          | some (teamToks, pre) => (joinSp teamToks, pre)
          | none =>
            match rem.reverse with
            | [] => ([], [])
            | last :: revInit => (joinSp revInit.reverse, last)
      some (natOfDigits ds, name, String.mk ((stripWS team).map upperC),
        String.mk prelim)

/-! ## Title inference (`infer_day_title`)

`strptime(..., "%d/%m/%Y")` raises `ValueError` on a matched token that is
not a valid calendar date, and `date + timedelta` raises `OverflowError`
outside years 1..9999; both are modelled as `Except.error`. -/

/-- Pattern `\d{1,2}` followed by a literal `/` (deterministic here). -/
def d12Slash (l : List Char) : Option (Nat × List Char) :=
  let ds := l.takeWhile isDigitC
  if ds.length = 0 || 3 ≤ ds.length then none
  else
    match l.dropWhile isDigitC with
    | '/' :: r => some (natOfDigits ds, r)
    | _ => none

/-- Pattern `\d{4}` (exactly four digits consumed). -/
def year4 (l : List Char) : Option (Nat × List Char) :=
  match l with
  | a :: b :: c :: d :: r =>
    if isDigitC a && isDigitC b && isDigitC c && isDigitC d then
      some (natOfDigits [a, b, c, d], r)
    else none
  | _ => none

/-- One `\d{1,2}/\d{1,2}/\d{4}` date token. -/
def dateShape (l : List Char) : Option (Nat × Nat × Nat × List Char) :=
  match d12Slash l with
  | none => none
  | some (d, r1) =>
    match d12Slash r1 with
    | none => none
    | some (m, r2) =>
      match year4 r2 with
      | none => none
      | some (y, r3) => some (d, m, y, r3)

/-- Try `-\s*(\d{1,2}/\d{1,2}/\d{4})\s+to\s+(\d{1,2}/\d{1,2}/\d{4})`
anchored at this position (`to` is case-sensitive in the source). -/
def dateAt (l : List Char) : Option (Nat × Nat × Nat) :=
  match l with
  | '-' :: r0 =>
    (match dateShape (dropSpaces r0) with
     | none => none
     | some (d, m, y, r3) =>
       match r3 with
       | c :: _ =>
         if isSpaceC c then
           match dropSpaces r3 with
           | 't' :: 'o' :: r4 =>
             (match r4 with
              | c2 :: _ =>
                if isSpaceC c2 then
                  (dateShape (dropSpaces r4)).map (fun _ => (d, m, y))
                else none
              | [] => none)
           | _ => none
         else none
       | [] => none)
  | _ => none

/-- Python `re.search` scan for the date-range pattern on the meet line; returns
the first date's (day, month, year). -/
def findDate : List Char → Option (Nat × Nat × Nat)
  | [] => none
  | c :: cs =>
    match dateAt (c :: cs) with
    | some v => some v
    | none => findDate cs

/-- The night ordinal words, in the source's alternation order. -/
def nightWords : List (List Char × Nat) :=
  [("One".data, 1), ("Two".data, 2), ("Three".data, 3), ("Four".data, 4),
   ("Five".data, 5), ("Six".data, 6), ("Seven".data, 7), ("Eight".data, 8),
   ("Nine".data, 9), ("Ten".data, 10)]

/-- Ordered alternation over the night words (case-insensitive prefix,
no boundary required by the source pattern). -/
def tryNightWords : List (List Char × Nat) → List Char → Option Nat
  | [], _ => none
  | (w, v) :: ws, l =>
    match dropCI w l with
    | some _ => some v
    | none => tryNightWords ws l

/-- Try `Night\s+(One|...|Ten|\d+)` anchored at this position. -/
def nightAt (l : List Char) : Option Nat :=
  match dropCI "Night".data l with
  | none => none
  | some r =>
    match r with
    | c :: _ =>
      if isSpaceC c then
        let r2 := dropSpaces r
        match tryNightWords nightWords r2 with
        | some v => some v
        | none =>
          let ds := r2.takeWhile isDigitC
          if ds = [] then none else some (natOfDigits ds)
      else none
    | [] => none

/-- Python `re.search` scan for the night pattern on the program line. -/
def findNightTok : List Char → Option Nat
  | [] => none
  | c :: cs =>
    match nightAt (c :: cs) with
    | some v => some v
    | none => findNightTok cs

/-- Gregorian leap year (as `datetime.date`). -/
def isLeap (y : Nat) : Bool := (y % 4 = 0 && y % 100 ≠ 0) || y % 400 = 0

/-- Days in a month of the proleptic Gregorian calendar. -/
def daysInMonth (y m : Nat) : Nat :=
  if m = 2 then (if isLeap y then 29 else 28)
  else if m = 4 || m = 6 || m = 9 || m = 11 then 30
  else 31

/-- Does `strptime(f"{d}/{m}/{y}", "%d/%m/%Y")` succeed?  (Both a format
mismatch such as day `0`/`99` and an invalid calendar day raise
`ValueError`; `datetime` years run 1..9999 and `y` has four digits.) -/
def validDMY (d m y : Nat) : Bool :=
  1 ≤ y && 1 ≤ m && m ≤ 12 && 1 ≤ d && d ≤ daysInMonth y m

/-- Days in the months strictly before `m` of year `y`. -/
def daysBeforeMonth (y m : Nat) : Nat :=
  (List.range (m - 1)).foldl (fun acc i => acc + daysInMonth y (i + 1)) 0

/-- Python `datetime.date.toordinal`: day 1 is 1/1/1. -/
def toOrdinal (y m d : Nat) : Nat :=
  (y - 1) * 365 + (y - 1) / 4 - (y - 1) / 100 + (y - 1) / 400 +
    daysBeforeMonth y m + d

/-- The largest representable ordinal, `date(9999, 12, 31).toordinal()`. -/
def maxOrdinal : Nat := toOrdinal 9999 12 31

/-- Recover the year of an ordinal (estimate plus bounded correction);
used only to format the shifted date. -/
def yearOf (n : Nat) : Nat :=
  let g0 := 400 * n / 146097 + 1
  let g1 := if n < toOrdinal g0 1 1 then g0 - 1 else g0
  let g2 := if n < toOrdinal g1 1 1 then g1 - 1 else g1
  let g3 := if toOrdinal (g2 + 1) 1 1 ≤ n then g2 + 1 else g2
  if toOrdinal (g3 + 1) 1 1 ≤ n then g3 + 1 else g3

/-- Walk the months of year `y` to split a day-of-year. -/
def monthDayF (y : Nat) : Nat → Nat → Nat → Nat × Nat
  | 0, m, rem => (m, rem)
  | f + 1, m, rem =>
    if rem ≤ daysInMonth y m then (m, rem)
    else monthDayF y f (m + 1) (rem - daysInMonth y m)

/-- Decimal digits of a natural number (fuelled). -/
def natDigitsF : Nat → Nat → List Char
  | 0, _ => []
  | f + 1, n =>
    if n < 10 then [Char.ofNat (48 + n)]
    else natDigitsF f (n / 10) ++ [Char.ofNat (48 + n % 10)]

/-- Decimal rendering of a natural number. -/
def natToStr (n : Nat) : String := String.mk (natDigitsF (n + 1) n)

/-- Zero-pad to two digits (`%d`, `%m`). -/
def pad2 (n : Nat) : String := if n < 10 then "0" ++ natToStr n else natToStr n

/-- Zero-pad to four digits (`%Y`). -/
def pad4 (n : Nat) : String :=
  if n < 10 then "000" ++ natToStr n
  else if n < 100 then "00" ++ natToStr n
  else if n < 1000 then "0" ++ natToStr n
  else natToStr n

/-- Python `strftime("%d/%m/%Y")` of an ordinal. -/
def fmtOrdinal (n : Nat) : String :=
  let y := yearOf n
  let doy := n - toOrdinal y 1 1 + 1
  let md := monthDayF y 12 1 doy
  pad2 md.2 ++ "/" ++ pad2 md.1 ++ "/" ++ pad4 y

/-- Function `infer_day_title` from `pdf_to_heats_xlsx.py`.  Errors are the
`ValueError` raised by `strptime` on a matched-but-invalid date token and
the `OverflowError` raised when the shifted date leaves `date`'s range. -/
def infer_day_title (first_page_lines : List String) : Except String String :=
  let meet := (first_page_lines.getD 0 "").data
  let prog := (first_page_lines.getD 1 "").data
  let night := (findNightTok prog).getD 1
  match findDate meet with
  | none => .ok ("Day " ++ natToStr night ++ " Heats - ")
  | some (d, m, y) =>
    if validDMY d m y then
      let o : Int := (toOrdinal y m d : Int) + (night : Int) - 1
      if 1 ≤ o ∧ o ≤ (maxOrdinal : Int) then
        .ok ("Day " ++ natToStr night ++ " Heats - " ++ fmtOrdinal o.toNat)
      else .error "OverflowError"
    else .error "ValueError"

/-! ## Document model and the parse state machine -/

/-- One heat: raw header line, cleaned label, lane assignments. -/
structure Heat where
  raw_label : String
  label : String
  lanes : List (Nat × String)
deriving DecidableEq, Repr

/-- One event with its heats. -/
structure Event where
  number : Nat
  gender : String
  event_code : String
  age_group : String
  heats : List Heat
deriving DecidableEq, Repr

/-- One alternates-list row. -/
structure AlternateEntry where
  event_no : Nat
  gender : String
  event_code : String
  age_group : String
  heat_label : String
  alt_group : String
  rank : Nat
  name : String
  team : String
  prelim : String
deriving DecidableEq, Repr

/-- Constant `MAX_HEATS_PER_EVENT` (the source ships `None` = unlimited). -/
def MAX_HEATS_PER_EVENT : Option Nat := none

/-- Mutable context of `parse_pdf`'s loop. -/
structure PState where
  events : List Event
  alternates : List AlternateEntry
  cur : Option Event
  openHeat : Bool
  inAlt : Bool
  altGroup : String
deriving DecidableEq, Repr

/-- Initial parse state. -/
def initState : PState :=
  { events := [], alternates := [], cur := none, openHeat := false,
    inAlt := false, altGroup := "" }

/-- Assignment `lanes[lane] = name` on the association-list model of the dict. -/
def setLane (lanes : List (Nat × String)) (k : Nat) (v : String) :
    List (Nat × String) :=
  if lanes.any (fun p => p.1 = k) then
    lanes.map (fun p => if p.1 = k then (k, v) else p)
  else lanes ++ [(k, v)]

/-- Placeholder heat for total `getLast` access. -/
def dummyHeat : Heat := { raw_label := "", label := "", lanes := [] }

/-- Write a lane into the event's most recently appended heat
(`current_heat` aliases `current_event.heats[-1]` in the source). -/
def updateLastHeat (ev : Event) (lane : Nat) (nm : String) : Event :=
  match ev.heats.getLast? with
  | none => ev
  | some h =>
    { ev with heats := ev.heats.dropLast ++
        [{ h with lanes := setLane h.lanes lane nm }] }

/-- Pattern `^\d{4}-\d{2}\b` (the boilerplate `YYYY-NN` code line). -/
def yearCode : List Char → Bool
  | a1 :: a2 :: a3 :: a4 :: '-' :: b1 :: b2 :: rest =>
    isDigitC a1 && isDigitC a2 && isDigitC a3 && isDigitC a4 &&
      isDigitC b1 && isDigitC b2 &&
      (match rest with
       | [] => true
       | g :: _ => !isWordC g)
  | _ => false

/-- The boilerplate tests of `parse_pdf` (on the stripped line). -/
def isBoilerplate (line : String) : Bool :=
  let low := line.data.map lowerC
  isPreL "lane ".data low || isPreL "name ".data low ||
    isPreL "age ".data low || isPreL "team ".data low ||
    isPreL "finals program".data low || yearCode line.data

/-- Python `low.startswith("alternates")`. -/
def isAltHeading (line : String) : Bool :=
  isPreL "alternates".data (line.data.map lowerC)

/-- The stripped form of a raw line, as `parse_pdf` computes it. -/
def lineOf (raw : String) : String := String.mk (stripWS raw.data)

/-- One iteration of `parse_pdf`'s loop on a raw line. -/
def step (st : PState) (raw : String) : PState :=
  let line := lineOf raw
  if line = "" then st
  else
    match parse_event_header line with
    | some (n, g, c, a) =>
      let newEv : Event :=
        { number := n, gender := g, event_code := c, age_group := a,
          heats := [] }
      { events := st.events ++ (match st.cur with
          | some e => [e]
          | none => []),
        alternates := st.alternates, cur := some newEv,
        openHeat := false, inAlt := false, altGroup := "" }
    | none =>
      match st.cur with
      | none => st
      | some ev =>
        if isBoilerplate line then st
        else if isAltHeading line then
          { st with
              inAlt := true,
              altGroup := String.mk (collapseWS (stripWS line.data)) }
        else
          match parse_heat_label line with
          | some hl =>
            let newHeat : Heat :=
              { raw_label := line, label := hl, lanes := [] }
            let withHeat : PState :=
              { st with
                  inAlt := false, altGroup := "", openHeat := true,
                  cur := some { ev with heats := ev.heats ++ [newHeat] } }
            (match MAX_HEATS_PER_EVENT with
             | some mx =>
               if mx ≤ ev.heats.length then
                 { st with inAlt := false, altGroup := "", openHeat := false }
               else withHeat
             | none => withHeat)
          | none =>
            if st.inAlt then
              match parse_alternate_line line with
              | some (r, nm, tm, pl) =>
                if ev.heats = [] then st
                else
                  let entry : AlternateEntry :=
                    { event_no := ev.number, gender := ev.gender,
                      event_code := ev.event_code, age_group := ev.age_group,
                      heat_label := (ev.heats.getLastD dummyHeat).label,
                      alt_group := st.altGroup, rank := r, name := nm,
                      team := tm, prelim := pl }
                  { st with alternates := st.alternates ++ [entry] }
              | none => st
            else
              match parse_lane_line line with
              | some (lane, nm) =>
                if st.openHeat then
                  { st with cur := some (updateLastHeat ev lane nm) }
                else st
              | none => st

/-- The line-sequence core of `parse_pdf`: fold the state machine over all
lines, then flush the open event. -/
def parseLines (lines : List String) : List Event × List AlternateEntry :=
  let st := lines.foldl step initState
  (st.events ++ (match st.cur with
    | some e => [e]
    | none => []), st.alternates)

/-! ## Notions used by the verification -/

/-- The shifted ordinal `start_date + (night - 1) days`. -/
def shiftedOrd (d m y : Nat) (prog : String) : Int :=
  (toOrdinal y m d : Int) + (((findNightTok prog.data).getD 1 : Nat) : Int) - 1

/-- Every recorded lane key is at most 9. -/
def lanesOk (ls : List (Nat × String)) : Prop := ∀ p ∈ ls, p.1 ≤ 9

/-- Every heat of the event has in-range lane keys. -/
def evOk (e : Event) : Prop := ∀ ht ∈ e.heats, lanesOk ht.lanes

/-- The state invariant: all closed events and the open event are ok. -/
def stOk (st : PState) : Prop :=
  (∀ e ∈ st.events, evOk e) ∧ ∀ e, st.cur = some e → evOk e

/-- Head is not whitespace (empty allowed). -/
def headNS : List Char → Bool
  | [] => true
  | c :: _ => !isSpaceC c

/-- Last character is not whitespace (empty allowed). -/
def lastNS (l : List Char) : Bool :=
  match l.getLast? with
  | some c => !isSpaceC c
  | none => true

/-- Every whitespace occurrence is a single `' '` followed by a
non-blank: the tail invariant of collapsed strings. -/
def tidyTail : List Char → Bool
  | [] => true
  | c :: l =>
    if isSpaceC c then
      decide (c = ' ') && (match l with
        | [] => false
        | d :: _ => !isSpaceC d) && tidyTail l
    else tidyTail l

/-- Concrete event for the C6 witness: one heat open. -/
def altEvW : Event :=
  { number := 1, gender := "W", event_code := "50FS",
    age_group := "15 & Over",
    heats := [{ raw_label := "Heat 1", label := "1", lanes := [] }] }

/-- Concrete state for the C6 witness: alternates mode on. -/
def altStW : PState :=
  { events := [], alternates := [], cur := some altEvW, openHeat := true,
    inAlt := true, altGroup := "Alternates - Women 50 Free" }

/-- Concrete document for the C9 witness. -/
def laneDocW : List String :=
  ["Event 5 Boys 100 LC Meter Breaststroke", "Heat 1", "4 Brown, Tom 15 NT"]

/-- The heat of the C9 witness document. -/
def laneHtW : Heat :=
  { raw_label := "Heat 1", label := "1", lanes := [(4, "BROWN, TOM")] }

/-- The event `parseLines laneDocW` produces. -/
def laneEvW : Event :=
  { number := 5, gender := "M", event_code := "100BR", age_group := "",
    heats := [laneHtW] }

/-! ## Auxiliary lemmas -/

theorem string_mk_data (s : String) : String.mk s.data = s := by
  cases s
  rfl

theorem length_dropWhile_le (p : Char → Bool) :
    ∀ l : List Char, (l.dropWhile p).length ≤ l.length := by
  intro l
  induction l with
  | nil => simp [List.dropWhile]
  | cons c cs ih =>
    simp only [List.dropWhile]
    split
    · exact Nat.le_trans ih (Nat.le_succ _)
    · exact Nat.le_refl _

theorem dropWhile_head_not (p : Char → Bool) :
    ∀ (l : List Char) (d : Char) (ds : List Char),
      l.dropWhile p = d :: ds → p d = false := by
  intro l
  induction l with
  | nil => intro d ds h; simp [List.dropWhile] at h
  | cons c cs ih =>
    intro d ds h
    simp only [List.dropWhile] at h
    split at h
    · exact ih d ds h
    · rename_i hc
      cases h
      exact hc

theorem takeWhile_all {α : Type} (p : α → Bool) :
    ∀ l : List α, (∀ a ∈ l, p a = true) → l.takeWhile p = l := by
  intro l
  induction l with
  | nil => intro _; rfl
  | cons c cs ih =>
    intro h
    simp only [List.takeWhile, h c (List.mem_cons_self c cs)]
    rw [ih fun a ha => h a (List.mem_cons_of_mem c ha)]

theorem dropWhile_all {α : Type} (p : α → Bool) :
    ∀ l : List α, (∀ a ∈ l, p a = true) → l.dropWhile p = [] := by
  intro l
  induction l with
  | nil => intro _; rfl
  | cons c cs ih =>
    intro h
    simp only [List.dropWhile, h c (List.mem_cons_self c cs)]
    exact ih fun a ha => h a (List.mem_cons_of_mem c ha)

/-! ## C4, C5, C7, C8: concrete classifier evaluations -/

/-- C4: event-header extraction on
`"Event 1 Girls 15 & Over 50 LC Meter Freestyle"` yields event number 1,
gender `"W"`, event code `"50FS"` and age group `"15 & Over"`. -/
theorem event_header_example :
    parse_event_header "Event 1 Girls 15 & Over 50 LC Meter Freestyle" =
      some (1, "W", "50FS", "15 & Over") := by
  decide

/-- C5: alternate-row extraction on
`"2 Hamilton (V), Nafanua 15 Samoa 27.74"` yields rank 2, name
`"HAMILTON, NAFANUA"` (visitor marker removed, comma spacing normalised,
uppercased), team `"SAMOA"` and prelim `"27.74"`. -/
theorem alternate_row_example :
    parse_alternate_line "2 Hamilton (V), Nafanua 15 Samoa 27.74" =
      some (2, "HAMILTON, NAFANUA", "SAMOA", "27.74") := by
  decide

/-- C7: range age-phrases are removed before single-age phrases:
`clean_heat_label "2a 12-13 Years & Old"` is exactly `"2a"`, not
`"2a 12"`. -/
theorem heat_label_range_before_single :
    clean_heat_label "2a 12-13 Years & Old" = "2a" ∧
      clean_heat_label "2a 12-13 Years & Old" ≠ "2a 12" := by
  decide

/-- C8: lane-row extraction on `"3 Smith, Jane 14 NT"` yields lane 3 and
name `"SMITH, JANE"`: the name run stops before the first stop token
(here the bare age `14`). -/
theorem lane_row_example :
    parse_lane_line "3 Smith, Jane 14 NT" = some (3, "SMITH, JANE") := by
  decide

/-! ## C1: unmapped gender words

The claim says a line `Event <n> <GenderWord> <rest>` with an unmapped
gender word is still recognised, with an empty gender field.  In the
source the regex alternation `(Girls|Women|Boys|Men|Mixed)` only admits
the five mapped words, so such a line is rejected outright
(`parse_event_header` returns `None`); the dictionary's `""` default is
unreachable.  Consequently every recognised header has gender `W`, `M`
or `X`. -/

/-- C1 (counterexample): a header line with the unmapped gender word
`Unicorns` is rejected by `parse_event_header`, not accepted with an
empty gender field. -/
theorem event_header_unmapped_gender_rejected :
    parse_event_header "Event 1 Unicorns 50 LC Meter Freestyle" = none := by
  decide

theorem eventTail_gender (n : Nat) (g : String) (restl : List Char) :
    (eventTail n g restl).2.1 = g := by
  simp only [eventTail]
  split <;> rfl

theorem findGender_mem :
    ∀ ws l g r, findGender ws l = some (g, r) → ∃ w, (w, g) ∈ ws := by
  intro ws
  induction ws with
  | nil => intro l g r h; simp [findGender] at h
  | cons wg ws ih =>
    intro l g r h
    obtain ⟨w0, g0⟩ := wg
    simp only [findGender] at h
    split at h
    · split at h
      · obtain ⟨w, hw⟩ := ih _ _ _ h
        exact ⟨w, List.mem_cons_of_mem _ hw⟩
      · cases h
        exact ⟨w0, List.mem_cons_self _ _⟩
    · obtain ⟨w, hw⟩ := ih _ _ _ h
      exact ⟨w, List.mem_cons_of_mem _ hw⟩

/-- C1 (amended): every line recognised by `parse_event_header` carries a
mapped gender, one of `"W"`, `"M"`, `"X"`; unmapped gender words are
rejected rather than yielding an empty gender. -/
theorem event_header_gender_mapped (line : String) (n : Nat)
    (g c a : String) (h : parse_event_header line = some (n, g, c, a)) :
    g = "W" ∨ g = "M" ∨ g = "X" := by
  simp only [parse_event_header] at h
  split at h
  · exact Option.noConfusion h
  · split at h
    · split at h
      · exact Option.noConfusion h
      · split at h
        · split at h
          · exact Option.noConfusion h
          · rename_i l l1 l2 hds l3 l4 g' restl hfg
            obtain ⟨w, hw⟩ := findGender_mem _ _ _ _ hfg
            have hg : g = g' := by
              have := congrArg (fun t => t.2.1) (Option.some.inj h)
              simpa [eventTail_gender] using this.symm
            subst hg
            simp only [genderWords, List.mem_cons, List.not_mem_nil,
              or_false, Prod.mk.injEq] at hw
            rcases hw with ⟨_, h'⟩ | ⟨_, h'⟩ | ⟨_, h'⟩ | ⟨_, h'⟩ | ⟨_, h'⟩ <;>
              simp [← h']
        · exact Option.noConfusion h
    · exact Option.noConfusion h

/-- C1 (witness): instantiating `event_header_gender_mapped` on a
concretely recognised header. -/
theorem event_header_gender_mapped_witness :
    parse_event_header "Event 3 Mixed 100 LC Meter Backstroke" =
        some (3, "X", "100BK", "") ∧
      ("X" = "W" ∨ "X" = "M" ∨ "X" = "X") :=
  ⟨by decide,
   event_header_gender_mapped "Event 3 Mixed 100 LC Meter Backstroke"
     3 "X" "100BK" "" (by decide)⟩

/-! ## C3: heat-label cleanup is not idempotent

The claim fails: the two-token rule `^(\S+)\s+\d{1,2}$` can leave a label
ending in `-`, which only a second cleanup's `rstrip("- ")` removes
(`"a- 1"` cleans to `"a-"`, which cleans to `"a"`), and one removal pass
can create a new age-phrase occurrence that a second pass would strip.
Cleanup is idempotent exactly on inputs whose cleaned label is a fixed
point of every cleanup stage. -/

/-- C3 (counterexample): cleanup applied twice differs from cleanup
applied once on `"a- 1"` (once gives `"a-"`, twice gives `"a"`). -/
theorem clean_heat_label_not_idem :
    ¬ clean_heat_label (clean_heat_label "a- 1") =
        clean_heat_label "a- 1" := by
  decide

/-- C3 (amended): cleanup is idempotent on every input whose cleaned
label is a fixed point of each cleanup stage — already trimmed and
whitespace-collapsed, free of unicode dashes, matching none of the
age-phrase patterns, with no trailing `-` or blank, and not of the
token-plus-bare-number shape. -/
theorem clean_heat_label_idem_of_fixed (s : String)
    (h1 : stripWS (clean_heat_label s).data = (clean_heat_label s).data)
    (h2 : collapseWS (clean_heat_label s).data = (clean_heat_label s).data)
    (h3 : dashNorm (clean_heat_label s).data = (clean_heat_label s).data)
    (h4 : cleanPatterns (clean_heat_label s).data = (clean_heat_label s).data)
    (h5 : rstripDashSpace (clean_heat_label s).data =
      (clean_heat_label s).data)
    (h6 : twoTokSub (clean_heat_label s).data = (clean_heat_label s).data) :
    clean_heat_label (clean_heat_label s) = clean_heat_label s := by
  conv_lhs => rw [clean_heat_label]
  rw [h1, h2, h3, h4, h2, h1, h5, h1, h6, h1]

/-- C3 (witness): `clean_heat_label_idem_of_fixed` applied to
`"1a Super Final"`, whose cleaned label is stage-fixed. -/
theorem clean_heat_label_idem_witness :
    clean_heat_label (clean_heat_label "1a Super Final") =
      clean_heat_label "1a Super Final" :=
  clean_heat_label_idem_of_fixed "1a Super Final" (by decide) (by decide)
    (by decide) (by decide) (by decide) (by decide)

/-! ## C2: totality of title inference

The claim fails: when the date-range pattern matches but the matched
token is not a valid calendar date, `strptime` raises `ValueError`
(e.g. the meet line `"- 31/2/2024 to 1/3/2024"`), and a huge night
number can push the shifted date past `date.max` (`OverflowError`).
Outside those two cases the computation is total, with the claimed
degradations: an unmatched date pattern yields an empty date and a
missing night token defaults the night to 1. -/

/-- C2 (counterexample): the meet line `"- 31/2/2024 to 1/3/2024"`
matches the date pattern, `strptime("31/2/2024", "%d/%m/%Y")` raises
`ValueError` (February has no day 31), and title inference aborts
rather than returning a title. -/
theorem infer_day_title_invalid_date_error :
    infer_day_title ["- 31/2/2024 to 1/3/2024", ""] =
      Except.error "ValueError" := by
  rfl

/-- C2 (amended): for every meet line and program line, title inference
returns a title provided that, whenever the date pattern matches, the
matched token is a valid calendar date whose night-shifted ordinal stays
in `date`'s range; in particular an unmatched date pattern degrades to an
empty date and a missing night token defaults the night number to 1. -/
theorem infer_day_title_total (meet prog : String)
    (h : ∀ d m y, findDate meet.data = some (d, m, y) →
      validDMY d m y = true ∧ 1 ≤ shiftedOrd d m y prog ∧
        shiftedOrd d m y prog ≤ (maxOrdinal : Int)) :
    (∃ s, infer_day_title [meet, prog] = Except.ok s) ∧
      (findDate meet.data = none →
        infer_day_title [meet, prog] =
          Except.ok ("Day " ++ natToStr ((findNightTok prog.data).getD 1) ++
            " Heats - ")) ∧
      (findNightTok prog.data = none →
        (findNightTok prog.data).getD 1 = 1) := by
  refine ⟨?_, ?_, ?_⟩
  · simp only [infer_day_title, List.getD_cons_zero, List.getD_cons_succ]
    cases hfd : findDate meet.data with
    | none => exact ⟨_, rfl⟩
    | some t =>
      obtain ⟨d, m, y⟩ := t
      obtain ⟨hv, hlo, hhi⟩ := h d m y hfd
      simp only [hv, eq_self_iff_true, if_true]
      rw [if_pos ⟨hlo, hhi⟩]
      exact ⟨_, rfl⟩
  · intro hfd
    simp only [infer_day_title, List.getD_cons_zero, List.getD_cons_succ, hfd]
  · intro hn
    rw [hn]
    rfl

/-- C2 (witness): `infer_day_title_total` on empty first-page lines,
where the date pattern does not match and no night token exists. -/
theorem infer_day_title_total_witness :
    (∃ s, infer_day_title ["", ""] = Except.ok s) ∧
      (findDate "".data = none →
        infer_day_title ["", ""] =
          Except.ok ("Day " ++ natToStr ((findNightTok "".data).getD 1) ++
            " Heats - ")) ∧
      (findNightTok "".data = none → (findNightTok "".data).getD 1 = 1) :=
  infer_day_title_total "" ""
    (fun _ _ _ hx => Option.noConfusion hx)

/-! ## C6: alternates mode emits an entry iff the event has a heat -/

/-- C6: while in alternates mode, on a line that is neither empty, an
event header, boilerplate, an alternates heading nor a heat header, the
machine appends exactly one `AlternateEntry` — copying the current
event's fields, the label of its last heat and the current group label —
iff alternate-row extraction succeeds and the current event already has
at least one heat; otherwise (extraction fails, or no heat is open yet)
the state is returned unchanged, with no error. -/
theorem step_alternates_iff_heats (st : PState) (ev : Event) (raw : String)
    (hcur : st.cur = some ev) (halt : st.inAlt = true)
    (hne : lineOf raw ≠ "")
    (hev : parse_event_header (lineOf raw) = none)
    (hb : isBoilerplate (lineOf raw) = false)
    (ha : isAltHeading (lineOf raw) = false)
    (hh : parse_heat_label (lineOf raw) = none) :
    step st raw =
      match parse_alternate_line (lineOf raw) with
      | some (r, nm, tm, pl) =>
        if ev.heats = [] then st
        else
          { st with alternates := st.alternates ++
              [{ event_no := ev.number, gender := ev.gender,
                 event_code := ev.event_code, age_group := ev.age_group,
                 heat_label := (ev.heats.getLastD dummyHeat).label,
                 alt_group := st.altGroup, rank := r, name := nm,
                 team := tm, prelim := pl }] }
      | none => st := by
  simp only [step, hne, hev, hcur, hb, ha, hh, halt, if_false,
    Bool.false_eq_true, if_true, ite_false, ite_true]

/-- C6 (witness): `step_alternates_iff_heats` on a concrete alternates
row with a heat already open: exactly one entry is appended. -/
theorem step_alternates_iff_heats_witness :
    step altStW "1 Shumack, Heidi 16 Sopac 26.25" =
      { altStW with alternates :=
          [{ event_no := 1, gender := "W", event_code := "50FS",
             age_group := "15 & Over", heat_label := "1",
             alt_group := "Alternates - Women 50 Free", rank := 1,
             name := "SHUMACK, HEIDI", team := "SOPAC",
             prelim := "26.25" }] } :=
  (step_alternates_iff_heats altStW altEvW "1 Shumack, Heidi 16 Sopac 26.25"
    rfl rfl (by decide) (by decide) (by decide) (by decide)
    (by decide)).trans (by decide)

/-! ## C9: lane keys stay in 0..9 -/

theorem parse_lane_line_le (line : String) (lane : Nat) (nm : String)
    (h : parse_lane_line line = some (lane, nm)) : lane ≤ 9 := by
  simp only [parse_lane_line] at h
  split at h
  · rename_i c c2 rest heq
    split at h
    · rename_i hcond
      split at h
      · exact Option.noConfusion h
      · have hlane : c.toNat - 48 = lane := by
          have := Option.some.inj h
          exact congrArg Prod.fst this
        have hdig : isDigitC c = true := by
          exact (Bool.and_eq_true _ _ |>.mp hcond).1
        simp only [isDigitC, Bool.and_eq_true, decide_eq_true_eq] at hdig
        omega
    · exact Option.noConfusion h
  · exact Option.noConfusion h

theorem setLane_ok {ls : List (Nat × String)} {k : Nat} {v : String}
    (h : lanesOk ls) (hk : k ≤ 9) : lanesOk (setLane ls k v) := by
  intro p hp
  unfold setLane at hp
  split at hp
  · obtain ⟨q, hq, hpq⟩ := List.mem_map.mp hp
    split at hpq
    · rw [← hpq]
      exact hk
    · rw [← hpq]
      exact h q hq
  · rcases List.mem_append.mp hp with h1 | h2
    · exact h p h1
    · rw [List.mem_singleton.mp h2]
      exact hk

theorem updateLastHeat_ok {e : Event} {lane : Nat} {nm : String}
    (h : evOk e) (hl : lane ≤ 9) : evOk (updateLastHeat e lane nm) := by
  intro ht hmem
  unfold updateLastHeat at hmem
  split at hmem
  · exact h ht hmem
  · rename_i h0 hlast
    simp only at hmem
    rcases List.mem_append.mp hmem with h1 | h2
    · exact h ht (List.dropLast_subset _ h1)
    · rw [List.mem_singleton.mp h2]
      exact setLane_ok (h h0 (List.mem_of_mem_getLast? hlast)) hl

theorem step_ok {st : PState} (h : stOk st) (raw : String) :
    stOk (step st raw) := by
  obtain ⟨he, hc⟩ := h
  simp only [step, MAX_HEATS_PER_EVENT]
  split
  · exact ⟨he, hc⟩
  · split
    · -- new event header: flush the old event, open a fresh one
      refine ⟨?_, ?_⟩
      · intro e hm
        rcases List.mem_append.mp hm with h1 | h2
        · exact he e h1
        · revert h2
          split
          · rename_i e0 hsc
            intro h2
            rw [List.mem_singleton.mp h2]
            exact hc e0 hsc
          · intro h2
            exact absurd h2 (List.not_mem_nil e)
      · intro e hme
        cases Option.some.inj hme
        intro ht hth
        exact absurd hth (List.not_mem_nil ht)
    · split
      · exact ⟨he, hc⟩
      · rename_i ev hcur
        have hev : evOk ev := hc ev hcur
        split
        · exact ⟨he, hc⟩
        · split
          · exact ⟨he, fun e hme => hc e hme⟩
          · split
            · -- new heat appended, with empty lanes
              refine ⟨he, ?_⟩
              intro e hme
              cases Option.some.inj hme
              intro ht hth
              rcases List.mem_append.mp hth with h1 | h2
              · exact hev ht h1
              · rw [List.mem_singleton.mp h2]
                intro p hp
                exact absurd hp (List.not_mem_nil p)
            · split
              · -- alternates mode
                split
                · split
                  · exact ⟨he, hc⟩
                  · exact ⟨he, fun e hme => hc e hme⟩
                · exact ⟨he, hc⟩
              · -- lane mode
                split
                · rename_i lane nm hpl
                  split
                  · refine ⟨he, ?_⟩
                    intro e hme
                    cases Option.some.inj hme
                    exact updateLastHeat_ok hev
                      (parse_lane_line_le _ _ _ hpl)
                  · exact ⟨he, hc⟩
                · exact ⟨he, hc⟩

theorem foldl_step_ok (lines : List String) :
    ∀ st : PState, stOk st → stOk (lines.foldl step st) := by
  induction lines with
  | nil => intro st h; exact h
  | cons l ls ih => intro st h; exact ih _ (step_ok h l)

theorem initState_ok : stOk initState :=
  ⟨fun e he => absurd he (List.not_mem_nil e),
   fun _ he => Option.noConfusion he⟩

/-- C9: in every document processed by the parse state machine, every key
of every heat's lane mapping is at most 9 (keys are naturals, so they lie
in 0..9): only a line whose leading token is a single digit `0`-`9` can
write into a heat's lane mapping. -/
theorem parse_lane_numbers_le (lines : List String) :
    ∀ ev ∈ (parseLines lines).1, ∀ ht ∈ ev.heats, ∀ p ∈ ht.lanes,
      p.1 ≤ 9 := by
  intro ev hev ht hht p hp
  have h := foldl_step_ok lines initState initState_ok
  simp only [parseLines] at hev
  rcases List.mem_append.mp hev with h1 | h2
  · exact h.1 ev h1 ht hht p hp
  · revert h2
    split
    · rename_i e0 hsc
      intro h2
      cases List.mem_singleton.mp h2
      exact h.2 _ hsc ht hht p hp
    · intro h2
      exact absurd h2 (List.not_mem_nil ev)

/-- C9 (witness): `parse_lane_numbers_le` on a concrete document whose
single lane row fills lane 4. -/
theorem parse_lane_numbers_le_witness :
    ((4 : Nat), "BROWN, TOM").1 ≤ 9 :=
  parse_lane_numbers_le laneDocW laneEvW
    (by rw [show (parseLines laneDocW).1 = [laneEvW] by decide]
        exact List.mem_singleton_self _)
    laneHtW (List.mem_singleton_self _)
    (4, "BROWN, TOM") (List.mem_singleton_self _)

/-! ## C10: alternate rows with no stop token

Supporting notions: a whitespace-collapsed, stripped line is *tidy* —
it starts and ends with a non-blank and every whitespace run is a single
`' '` — and on tidy strings `" ".join(s.split())` is the identity. -/

theorem collapseAux_cons (b : Bool) (c : Char) (cs : List Char) :
    collapseAux b (c :: cs) =
      if isSpaceC c then
        (if b then collapseAux true cs else ' ' :: collapseAux true cs)
      else c :: collapseAux false cs := rfl

theorem tidyTail_cons (c : Char) (l : List Char) :
    tidyTail (c :: l) =
      if isSpaceC c then
        decide (c = ' ') && (match l with
          | [] => false
          | d :: _ => !isSpaceC d) && tidyTail l
      else tidyTail l := rfl

theorem headNS_dropSpaces (l : List Char) :
    headNS (l.dropWhile isSpaceC) = true := by
  induction l with
  | nil => rfl
  | cons c cs ih =>
    simp only [List.dropWhile]
    split
    · exact ih
    · rename_i hc
      simp [headNS, hc]

theorem getLast?_cons_of_ne_nil {x : Char} {l : List Char} (h : l ≠ []) :
    (x :: l).getLast? = l.getLast? := by
  cases l with
  | nil => exact absurd rfl h
  | cons y ys => exact List.getLast?_cons_cons

theorem headNS_collapse_true (l : List Char) :
    headNS (collapseAux true l) = true := by
  induction l with
  | nil => rfl
  | cons c cs ih =>
    simp only [collapseAux]
    split
    · simpa using ih
    · rename_i hc
      simp [headNS, hc]

theorem headNS_collapse_false {l : List Char} (h : headNS l = true) :
    headNS (collapseAux false l) = true := by
  cases l with
  | nil => rfl
  | cons c cs =>
    simp only [headNS, Bool.not_eq_true'] at h
    simp [collapseAux, h, headNS]

theorem collapse_getLast :
    ∀ (l : List Char) (c0 : Char), l.getLast? = some c0 →
      isSpaceC c0 = false → ∀ b, (collapseAux b l).getLast? = some c0 := by
  intro l
  induction l with
  | nil => intro c0 h; exact absurd h (by simp)
  | cons c cs ih =>
    intro c0 hc0 hns b
    cases cs with
    | nil =>
      simp only [List.getLast?_singleton, Option.some.injEq] at hc0
      subst hc0
      simp [collapseAux, hns]
    | cons c1 cs1 =>
      rw [List.getLast?_cons_cons] at hc0
      have hx : ∀ b', (collapseAux b' (c1 :: cs1)).getLast? = some c0 :=
        ih c0 hc0 hns
      have hnn : ∀ b', collapseAux b' (c1 :: cs1) ≠ [] := by
        intro b' hcontra
        have := hx b'
        rw [hcontra] at this
        exact Option.noConfusion this
      rw [collapseAux_cons]
      split
      · split
        · exact hx true
        · rw [getLast?_cons_of_ne_nil (hnn true)]
          exact hx true
      · rw [getLast?_cons_of_ne_nil (hnn false)]
        exact hx false

theorem tidyTail_collapse :
    ∀ l : List Char, lastNS l = true → ∀ b,
      tidyTail (collapseAux b l) = true := by
  intro l
  induction l with
  | nil => intro _ b; rfl
  | cons c cs ih =>
    intro hln b
    cases cs with
    | nil =>
      have hc : isSpaceC c = false := by
        simpa [lastNS, Bool.not_eq_true'] using hln
      simp [collapseAux, hc, tidyTail]
    | cons c1 cs1 =>
      have hln' : lastNS (c1 :: cs1) = true := by
        simpa [lastNS, List.getLast?_cons_cons] using hln
      obtain ⟨c0, hg⟩ : ∃ c0, (c1 :: cs1).getLast? = some c0 := by
        cases hgl : (c1 :: cs1).getLast? with
        | none =>
          exact absurd hgl (by simp [List.getLast?_eq_none_iff])
        | some c0 => exact ⟨c0, rfl⟩
      have hc0 : isSpaceC c0 = false := by
        simpa [lastNS, hg, Bool.not_eq_true'] using hln'
      have hXlast := collapse_getLast (c1 :: cs1) c0 hg hc0 true
      have hXne : collapseAux true (c1 :: cs1) ≠ [] := by
        intro hcontra
        rw [hcontra] at hXlast
        exact Option.noConfusion hXlast
      by_cases hsp : isSpaceC c = true
      · rw [collapseAux_cons, if_pos hsp]
        cases b with
        | true =>
          simp only [if_true]
          exact ih hln' true
        | false =>
          simp only [Bool.false_eq_true, if_false]
          have hhd := headNS_collapse_true (c1 :: cs1)
          cases hX : collapseAux true (c1 :: cs1) with
          | nil => exact absurd hX hXne
          | cons d ds =>
            rw [hX] at hhd
            simp only [headNS] at hhd
            have hts := ih hln' true
            rw [hX] at hts
            rw [tidyTail_cons, if_pos (show isSpaceC ' ' = true from rfl)]
            simp [hhd, hts]
      · have hsp' : isSpaceC c = false := by
          simpa using hsp
        rw [collapseAux_cons, if_neg (by simp [hsp'])]
        rw [tidyTail_cons, if_neg (by simp [hsp'])]
        exact ih hln' false

theorem lastNS_dropWhile (p : Char → Bool) (l : List Char)
    (h : lastNS l = true) : lastNS (l.dropWhile p) = true := by
  cases hdw : l.dropWhile p with
  | nil => rfl
  | cons d ds =>
    obtain ⟨pre, happ⟩ := List.dropWhile_suffix p (l := l)
    rw [hdw] at happ
    have : l.getLast? = (d :: ds).getLast? := by
      rw [← happ]
      exact (List.getLast?_append_of_ne_nil pre (by simp))
    simpa [lastNS, ← this] using h

theorem lastNS_rstripWS (l : List Char) : lastNS (rstripWS l) = true := by
  have hh := headNS_dropSpaces l.reverse
  have hrev : (rstripWS l).getLast? = (l.reverse.dropWhile isSpaceC).head? := by
    rw [rstripWS]
    rw [show (l.reverse.dropWhile isSpaceC).head? =
      ((l.reverse.dropWhile isSpaceC).reverse).getLast? by
        rw [← List.head?_reverse]
        rw [List.reverse_reverse]]
  cases hdw : (l.reverse.dropWhile isSpaceC) with
  | nil =>
    rw [lastNS, hrev, hdw]
    rfl
  | cons d ds =>
    rw [hdw] at hh
    simp only [headNS] at hh
    rw [lastNS, hrev, hdw]
    simpa using hh

theorem lastNS_stripWS (l : List Char) : lastNS (stripWS l) = true :=
  lastNS_dropWhile isSpaceC _ (lastNS_rstripWS l)

theorem headNS_stripWS (l : List Char) : headNS (stripWS l) = true :=
  headNS_dropSpaces _

theorem headNS_normLine (s : String) : headNS (normLine s) = true :=
  headNS_collapse_false (headNS_stripWS s.data)

theorem tidyTail_normLine (s : String) : tidyTail (normLine s) = true :=
  tidyTail_collapse (stripWS s.data) (lastNS_stripWS s.data) false

theorem space_not_digit (c : Char) (h : isSpaceC c = true) :
    isDigitC c = false := by
  simp only [isSpaceC, Bool.or_eq_true, decide_eq_true_eq] at h
  rcases h with ⟨⟨⟨⟨h | h⟩ | h⟩ | h⟩ | h⟩ | h <;> subst h <;> rfl

theorem split_space_tail :
    ∀ (l rest : List Char), tidyTail l = true →
      l.dropWhile isDigitC = ' ' :: rest →
      headNS rest = true ∧ tidyTail rest = true ∧ rest ≠ [] := by
  intro l
  induction l with
  | nil => intro rest _ hdw; simp [List.dropWhile] at hdw
  | cons c cs ih =>
    intro rest ht hdw
    by_cases hsp : isSpaceC c = true
    · have hpd : isDigitC c = false := space_not_digit c hsp
      rw [List.dropWhile_cons, if_neg (by simp [hpd])] at hdw
      injection hdw with hc hcs
      subst hcs
      rw [tidyTail_cons, if_pos hsp] at ht
      simp only [Bool.and_eq_true, decide_eq_true_eq] at ht
      obtain ⟨⟨_, hmatch⟩, htt⟩ := ht
      cases cs with
      | nil => simp at hmatch
      | cons d ds =>
        refine ⟨by simpa [headNS] using hmatch, htt, by simp⟩
    · have hsp' : isSpaceC c = false := by simpa using hsp
      rw [List.dropWhile_cons] at hdw
      have ht' : tidyTail cs = true := by
        rw [tidyTail_cons, if_neg (by simp [hsp'])] at ht
        exact ht
      split at hdw
      · exact ih rest ht' hdw
      · injection hdw with hc hcs
        rw [hc] at hsp'
        exact absurd hsp' (by simp [isSpaceC])

theorem tidyTail_dropWhile_ns :
    ∀ l : List Char, tidyTail l = true →
      tidyTail (l.dropWhile (fun x => !isSpaceC x)) = true := by
  intro l
  induction l with
  | nil => intro _; rfl
  | cons c cs ih =>
    intro ht
    rw [List.dropWhile_cons]
    by_cases hsp : isSpaceC c = true
    · rw [if_neg (by simp [hsp])]
      exact ht
    · have hsp' : isSpaceC c = false := by simpa using hsp
      rw [if_pos (by simp [hsp'])]
      exact ih (by simpa [tidyTail, hsp', Bool.false_eq_true] using ht)

theorem pySplitF_space (f : Nat) (cs : List Char) :
    pySplitF (f + 1) (' ' :: cs) = pySplitF f cs := rfl

theorem pySplitF_nonspace (f : Nat) (c : Char) (cs : List Char)
    (h : isSpaceC c = false) :
    pySplitF (f + 1) (c :: cs) =
      (c :: cs.takeWhile (fun x => !isSpaceC x)) ::
        pySplitF f (cs.dropWhile (fun x => !isSpaceC x)) := by
  simp [pySplitF, h]

theorem joinSplit_aux :
    ∀ (n f : Nat) (l : List Char), l.length ≤ n → l.length ≤ f →
      headNS l = true → tidyTail l = true →
      joinSp (pySplitF f l) = l := by
  intro n
  induction n with
  | zero =>
    intro f l hn _ _ _
    have : l = [] := List.length_eq_zero.mp (Nat.le_zero.mp hn)
    subst this
    cases f <;> rfl
  | succ n ihn =>
    intro f l hn hf hhd htt
    cases l with
    | nil => cases f <;> rfl
    | cons c cs =>
      have hc : isSpaceC c = false := by
        simpa [headNS, Bool.not_eq_true'] using hhd
      cases f with
      | zero => exact absurd hf (by simp)
      | succ f' =>
        rw [pySplitF_nonspace f' c cs hc]
        have htcs : tidyTail cs = true := by
          rw [tidyTail_cons, if_neg (by simp [hc])] at htt
          exact htt
        have hsplit := List.takeWhile_append_dropWhile
          (p := fun x => !isSpaceC x) (l := cs)
        cases hdw : cs.dropWhile (fun x => !isSpaceC x) with
        | nil =>
          have htw : cs.takeWhile (fun x => !isSpaceC x) = cs := by
            have := hsplit
            rw [hdw, List.append_nil] at this
            exact this
          rw [htw]
          cases f' <;> rfl
        | cons d ds =>
          have hd : isSpaceC d = true := by
            have := dropWhile_head_not _ cs d ds hdw
            simpa using this
          have htdw : tidyTail (d :: ds) = true := by
            have := tidyTail_dropWhile_ns cs htcs
            rwa [hdw] at this
          rw [tidyTail_cons, if_pos hd] at htdw
          simp only [Bool.and_eq_true, decide_eq_true_eq] at htdw
          obtain ⟨⟨hd', hmatch⟩, htds⟩ := htdw
          cases ds with
          | nil => simp at hmatch
          | cons e es =>
            have he : isSpaceC e = false := by
              simpa [Bool.not_eq_true'] using hmatch
            have hlen1 : es.length + 2 ≤ cs.length := by
              have h0 : (d :: e :: es).length ≤ cs.length := by
                rw [← hdw]
                exact length_dropWhile_le _ cs
              simpa using h0
            have hlen2 : cs.length ≤ f' := by
              simpa using hf
            have hlen3 : cs.length ≤ n := by
              simpa using hn
            cases f' with
            | zero => omega
            | succ f'' =>
              subst hd'
              rw [pySplitF_space f'' (e :: es)]
              have hes : (e :: es).length ≤ f'' := by
                simp only [List.length_cons]
                omega
              have hesn : (e :: es).length ≤ n := by
                simp only [List.length_cons]
                omega
              have hIH := ihn f'' (e :: es) hesn hes
                (by simpa [headNS] using he) htds
              have hTne : pySplitF f'' (e :: es) ≠ [] := by
                cases f'' with
                | zero => exact absurd hes (by simp)
                | succ k =>
                  rw [pySplitF_nonspace k e es he]
                  exact List.cons_ne_nil _ _
              cases hT : pySplitF f'' (e :: es) with
              | nil => exact absurd hT hTne
              | cons t0 ts =>
                rw [hT] at hIH
                simp only [joinSp]
                rw [hIH, List.cons_append]
                have hfin : List.takeWhile (fun x => !isSpaceC x) cs ++
                    ' ' :: e :: es = cs := by
                  rw [← hdw]
                  exact hsplit
                rw [hfin]

theorem joinSp_pythonSplit (l : List Char) (h1 : headNS l = true)
    (h2 : tidyTail l = true) : joinSp (pythonSplit l) = l :=
  joinSplit_aux l.length l.length l (Nat.le_refl _) (Nat.le_refl _) h1 h2

/-- C10: an alternate-row line with an integer rank whose remaining
tokens contain no stop token (no bare 1-2 digit age, no sex+age token,
no multi-class code) parses to the whole remainder as the normalised
name, with empty team and prelim. -/
theorem alternate_no_stop (line : String) (ds rest : List Char)
    (h1 : splitRank (normLine line) = some (ds, rest))
    (h2 : ∀ t ∈ pythonSplit rest, altStop t = false) :
    parse_alternate_line line =
      some (natOfDigits ds, normalise_name (String.mk rest), "", "") := by
  have hdw : (normLine line).dropWhile isDigitC = ' ' :: rest := by
    have h1' := h1
    simp only [splitRank] at h1'
    split at h1'
    · rename_i rest0 hdw0
      split at h1'
      · exact Option.noConfusion h1'
      · obtain ⟨_, hr⟩ := Prod.mk.injEq _ _ _ _ |>.mp (Option.some.inj h1')
        rw [← hr]
        exact hdw0
    · exact Option.noConfusion h1'
  obtain ⟨hhd, htt, hne⟩ :=
    split_space_tail (normLine line) rest (tidyTail_normLine line) hdw
  have hjs : joinSp (pythonSplit rest) = rest :=
    joinSp_pythonSplit rest hhd htt
  have htake : (pythonSplit rest).takeWhile (fun t => !altStop t) =
      pythonSplit rest :=
    takeWhile_all _ _ (fun a ha => by rw [h2 a ha]; rfl)
  have hdrop : (pythonSplit rest).dropWhile (fun t => !altStop t) = [] :=
    dropWhile_all _ _ (fun a ha => by rw [h2 a ha]; rfl)
  have hsne : pythonSplit rest ≠ [] := by
    cases rest with
    | nil => exact absurd rfl hne
    | cons e es =>
      have he : isSpaceC e = false := by
        simpa [headNS, Bool.not_eq_true'] using hhd
      simp [pythonSplit, pySplitF, he, Bool.false_eq_true]
  simp only [parse_alternate_line, h1, htake, hdrop, hjs]
  rw [if_neg hsne]
  rfl

/-- C10 (witness): `alternate_no_stop` on `"3 Smith, Jane"`, whose
remainder has no stop token. -/
theorem alternate_no_stop_witness :
    parse_alternate_line "3 Smith, Jane" =
      some (3, "SMITH, JANE", "", "") :=
  (alternate_no_stop "3 Smith, Jane" ['3'] "Smith, Jane".data (by decide)
    (by decide)).trans (by decide)

end SwimParse
